import Mathlib

/-!
Verification development for the Web3.LOC contract discovery pipeline.

The Python sources under `src/contract_discovery/` and `src/main.py` are
shallowly embedded below: pure helper functions become Lean functions, the
network is modelled by explicit oracle functions (an address is mapped to the
result the corresponding fetch helper would have produced), the SQLite table
becomes an explicit list of rows, and every Python function that swallows
exceptions becomes a total function returning its normalized failure value.
SHA-256 is implemented in full (FIPS 180-4) over `Nat`, so digests can be
computed inside proofs.
-/

set_option maxRecDepth 400000

/-! ## SHA-256 over Nat (hashlib.sha256(...).hexdigest()) -/

/-- Modulus for 32-bit arithmetic. -/
def M32 : Nat := 4294967296

def add32 (a b : Nat) : Nat := (a + b) % M32

def rotr32 (x k : Nat) : Nat := ((x >>> k) ||| (x <<< (32 - k))) % M32

def xor32 (a b : Nat) : Nat := a ^^^ b

def not32 (x : Nat) : Nat := x ^^^ (M32 - 1)

def bsig0 (x : Nat) : Nat := xor32 (xor32 (rotr32 x 2) (rotr32 x 13)) (rotr32 x 22)

def bsig1 (x : Nat) : Nat := xor32 (xor32 (rotr32 x 6) (rotr32 x 11)) (rotr32 x 25)

def ssig0 (x : Nat) : Nat := xor32 (xor32 (rotr32 x 7) (rotr32 x 18)) (x >>> 3)

def ssig1 (x : Nat) : Nat := xor32 (xor32 (rotr32 x 17) (rotr32 x 19)) (x >>> 10)

def chf (x y z : Nat) : Nat := xor32 (x &&& y) ((not32 x) &&& z)

def majf (x y z : Nat) : Nat := xor32 (xor32 (x &&& y) (x &&& z)) (y &&& z)

/-- Round constants of SHA-256. -/
def shaK : List Nat :=
  [1116352408, 1899447441, 3049323471, 3921009573, 961987163, 1508970993,
   2453635748, 2870763221, 3624381080, 310598401, 607225278, 1426881987,
   1925078388, 2162078206, 2614888103, 3248222580, 3835390401, 4022224774,
   264347078, 604807628, 770255983, 1249150122, 1555081692, 1996064986,
   2554220882, 2821834349, 2952996808, 3210313671, 3336571891, 3584528711,
   113926993, 338241895, 666307205, 773529912, 1294757372, 1396182291,
   1695183700, 1986661051, 2177026350, 2456956037, 2730485921, 2820302411,
   3259730800, 3345764771, 3516065817, 3600352804, 4094571909, 275423344,
   430227734, 506948616, 659060556, 883997877, 958139571, 1322822218,
   1537002063, 1747873779, 1955562222, 2024104815, 2227730452, 2361852424,
   2428436474, 2756734187, 3204031479, 3329325298]

/-- Working state of the SHA-256 compression function. -/
structure Sha8 where
  a : Nat
  b : Nat
  c : Nat
  d : Nat
  e : Nat
  f : Nat
  g : Nat
  h : Nat
deriving DecidableEq

/-- Initial hash value of SHA-256. -/
def shaH0 : Sha8 :=
  ⟨1779033703, 3144134277, 1013904242, 2773480762, 1359893119, 2600822924, 528734635, 1541459225⟩

/-- Message-schedule extension: append `n` further words to the 16 block words. -/
def extendW : Nat → List Nat → List Nat
  | 0, ws => ws
  | n + 1, ws =>
    let m := ws.length
    let t := add32 (add32 (ssig1 (ws.getD (m - 2) 0)) (ws.getD (m - 7) 0))
                   (add32 (ssig0 (ws.getD (m - 15) 0)) (ws.getD (m - 16) 0))
    extendW n (ws ++ [t])

/-- The 64 compression rounds, consuming round constants and schedule words. -/
def compressRounds : List Nat → List Nat → Sha8 → Sha8
  | _, [], s => s
  | [], _, s => s
  | k :: ks, w :: ws, s =>
    let t1 := add32 (add32 (add32 s.h (bsig1 s.e)) (add32 (chf s.e s.f s.g) k)) w
    let t2 := add32 (bsig0 s.a) (majf s.a s.b s.c)
    compressRounds ks ws ⟨add32 t1 t2, s.a, s.b, s.c, add32 s.d t1, s.e, s.f, s.g⟩

def addState (x y : Sha8) : Sha8 :=
  ⟨add32 x.a y.a, add32 x.b y.b, add32 x.c y.c, add32 x.d y.d,
   add32 x.e y.e, add32 x.f y.f, add32 x.g y.g, add32 x.h y.h⟩

/-- Process a padded message, given as 32-bit words, in blocks of 16 words. -/
def processBlocks (s : Sha8) : List Nat → Sha8
  | w0 :: w1 :: w2 :: w3 :: w4 :: w5 :: w6 :: w7 :: w8 :: w9 :: w10 :: w11 :: w12 :: w13 :: w14 :: w15 :: rest =>
    let w := extendW 48 [w0, w1, w2, w3, w4, w5, w6, w7, w8, w9, w10, w11, w12, w13, w14, w15]
    processBlocks (addState s (compressRounds shaK w s)) rest
  | _ => s

/-- Big-endian packing of bytes into 32-bit words. -/
def bytesToWords : List Nat → List Nat
  | b0 :: b1 :: b2 :: b3 :: rest => (((b0 * 256 + b1) * 256 + b2) * 256 + b3) :: bytesToWords rest
  | _ => []

/-- SHA-256 padding: append 0x80, zeros, and the 64-bit big-endian bit length. -/
def sha256pad (msg : List Nat) : List Nat :=
  let len := msg.length
  let zeros := (64 - (len + 9) % 64) % 64
  let bitLen := 8 * len
  msg ++ [128] ++ List.replicate zeros 0 ++
    [56, 48, 40, 32, 24, 16, 8, 0].map (fun k => (bitLen >>> k) % 256)

/-- Lower-case hex digit for a value below 16. -/
def hexDigit (n : Nat) : Char :=
  if n < 10 then Char.ofNat (48 + n) else Char.ofNat (87 + n)

def natToHex8 (n : Nat) : List Char :=
  [28, 24, 20, 16, 12, 8, 4, 0].map (fun k => hexDigit ((n >>> k) % 16))

/-- SHA-256 of a byte list, rendered as the usual 64-character lower-case hex
digest (the behaviour of Python's `hashlib.sha256(b).hexdigest()`). -/
def sha256hex (msg : List Nat) : String :=
  let s := processBlocks shaH0 (bytesToWords (sha256pad msg))
  String.mk (natToHex8 s.a ++ natToHex8 s.b ++ natToHex8 s.c ++ natToHex8 s.d ++
             natToHex8 s.e ++ natToHex8 s.f ++ natToHex8 s.g ++ natToHex8 s.h)

/-- UTF-8 encoding of a single code point. -/
def utf8Enc (c : Nat) : List Nat :=
  if c < 128 then [c]
  else if c < 2048 then [192 ||| (c >>> 6), 128 ||| (c &&& 63)]
  else if c < 65536 then [224 ||| (c >>> 12), 128 ||| ((c >>> 6) &&& 63), 128 ||| (c &&& 63)]
  else [240 ||| (c >>> 18), 128 ||| ((c >>> 12) &&& 63), 128 ||| ((c >>> 6) &&& 63), 128 ||| (c &&& 63)]

/-- UTF-8 bytes of a character list (the behaviour of Python's `str.encode()`). -/
def bytesOfChars (l : List Char) : List Nat := (l.map (fun c => utf8Enc c.toNat)).flatten

def strBytes (s : String) : List Nat := bytesOfChars s.data

/-! ## Python string helpers

These model the string operations the pipeline uses, restricted to the ASCII
case mapping and ASCII whitespace (every concrete input in this development is
ASCII, and the explorer payloads the code processes are ASCII hex/source). -/

/-- Model of Python `str.lower()` (ASCII case mapping). -/
def pyLower (s : String) : String := String.mk (s.data.map Char.toLower)

/-- Model of Python `s.replace('0x', '')`: remove every occurrence of the
two-character pattern, scanning left to right without overlap. -/
def remove0xAll : List Char → List Char
  | '0' :: 'x' :: rest => remove0xAll rest
  | c :: rest => c :: remove0xAll rest
  | [] => []

/-- Whitespace in the sense of Python `str.split()` with no separator
(ASCII whitespace: space, tab, newline, carriage return, vertical tab,
form feed). -/
def isPySpace (c : Char) : Bool :=
  c == ' ' || c == '\t' || c == '\n' || c == '\r' || c.toNat == 11 || c.toNat == 12

/-- Accumulator worker for `str.split()`: splits on whitespace runs and drops
empty fields, so leading and trailing whitespace produce no words. -/
def wordsAux : List Char → List Char → List (List Char)
  | [], acc => if acc = [] then [] else [acc.reverse]
  | c :: rest, acc =>
    if isPySpace c then
      if acc = [] then wordsAux rest [] else acc.reverse :: wordsAux rest []
    else wordsAux rest (c :: acc)

/-- Model of Python `source_code.split()` at the character-list level. -/
def pySplitWs (s : String) : List (List Char) := wordsAux s.data []

/-- Model of Python `' '.join(words)`. -/
def joinWordsL : List (List Char) → List Char
  | [] => []
  | [w] => w
  | w :: w2 :: rest => w ++ ' ' :: joinWordsL (w2 :: rest)

/-- Model of Python `int(str)`: optional surrounding whitespace, optional
sign, then a non-empty digit run; anything else raises ValueError, which we
represent by `none`. -/
def digitVal (c : Char) : Option Nat :=
  if 48 ≤ c.toNat && c.toNat ≤ 57 then some (c.toNat - 48) else none

def digitsToNat : List Char → Nat → Option Nat
  | [], acc => some acc
  | c :: rest, acc =>
    match digitVal c with
    | some d => digitsToNat rest (acc * 10 + d)
    | none => none

def stripPySpaces (l : List Char) : List Char :=
  ((l.dropWhile (fun c => isPySpace c)).reverse.dropWhile (fun c => isPySpace c)).reverse

def pyInt (s : String) : Option Int :=
  match stripPySpaces s.data with
  | [] => none
  | '+' :: ds => if ds = [] then none else (digitsToNat ds 0).map Int.ofNat
  | '-' :: ds => if ds = [] then none else (digitsToNat ds 0).map (fun n => -(n : Int))
  | ds => (digitsToNat ds 0).map Int.ofNat

/-! ## Content hashing
(`EnhancedBlockchainClient._generate_bytecode_hash` / `_generate_source_hash`)
-/

/-- Embedding of `_generate_bytecode_hash`:
`hashlib.sha256(bytecode.lower().replace('0x', '').encode()).hexdigest()`. -/
def _generate_bytecode_hash (bytecode : String) : String :=
  sha256hex (bytesOfChars (remove0xAll (pyLower bytecode).data))

/-- Embedding of `_generate_source_hash`:
`hashlib.sha256(' '.join(source_code.split()).encode()).hexdigest()`. -/
def _generate_source_hash (source_code : String) : String :=
  sha256hex (bytesOfChars (joinWordsL (pySplitWs source_code)))

/-- Spec-side reading for claim C4 (refinement comparison only): strip one
leading `0x`, leaving the rest untouched. -/
def stripLead0x : List Char → List Char
  | '0' :: 'x' :: rest => rest
  | l => l

def specStrip0x (s : String) : String := String.mk (stripLead0x s.data)

/-- Spec-side bytecode hash for claim C4: digest of the lower-cased bytecode
with any `0x` prefix stripped. -/
def specBytecodeHash (b : String) : String :=
  sha256hex (strBytes (specStrip0x (pyLower b)))

/-- Spec-side reading for claim C5 (refinement comparison only): collapse every
maximal whitespace run to a single space, touching nothing else — in
particular leading and trailing runs become single spaces rather than being
removed. -/
def collapseRuns : List Char → List Char
  | [] => []
  | [c] => [if isPySpace c then ' ' else c]
  | c1 :: c2 :: rest =>
    if isPySpace c1 && isPySpace c2 then collapseRuns (c2 :: rest)
    else (if isPySpace c1 then ' ' else c1) :: collapseRuns (c2 :: rest)

def specCollapseWs (s : String) : String := String.mk (collapseRuns s.data)

/-- Spec-side source hash for claim C5: digest of the text after collapsing
whitespace runs to single spaces. -/
def specSourceHash (s : String) : String :=
  sha256hex (strBytes (specCollapseWs s))

/-! ## Per-chain deduplication (`EnhancedBlockchainClient._is_duplicate_contract`) -/

/-- Embedding of `_is_duplicate_contract`: the in-memory seen-hash sets are
modelled as lists (membership is all the code uses). -/
def _is_duplicate_contract (seen_bytecode_hashes seen_source_hashes : List String)
    (bytecode_hash source_hash : String) : Bool :=
  if bytecode_hash ∈ seen_bytecode_hashes then true
  else if source_hash ∈ seen_source_hashes then true
  else false

/-! ## Contract records and the per-chain scanner -/

/-- Embedding of the `ContractData` record of
`enhanced_blockchain_client.py`. -/
structure ContractData where
  address : String
  name : String
  source_code : String
  bytecode : String
  compiler_version : String
  optimization : Bool
  runs : Int
  constructor_arguments : String
  abi : String
  creation_txhash : String
  block_number : Int
  chain : String
  chain_id : Int
  verified_date : String
  bytecode_hash : String
  source_hash : String
deriving DecidableEq

/-- Fields of the explorer `getsourcecode` payload that the scanner reads with
`dict.get`; `none` models an absent key. -/
structure SourcePayload where
  SourceCode : Option String
  ContractName : Option String
  CompilerVersion : Option String
  OptimizationUsed : Option String
  Runs : Option String
  ConstructorArguments : Option String
  ABI : Option String
deriving DecidableEq

/-- Runs value used in the record: `int(source_data.get('Runs', 0))`; a
missing key defaults to the integer 0, a present key is parsed with `int` and
`none` models the ValueError the broad per-address `except` swallows. -/
def parseRuns (r : Option String) : Option Int :=
  match r with
  | none => some 0
  | some v => pyInt v

/-- Embedding of the body of `get_verified_contracts`: iterate the candidate
addresses, skip an address when its source is unavailable or empty, its
bytecode is unavailable or empty, or its hashes are duplicates; otherwise
record both hashes as seen and emit a `ContractData`. The network is an
oracle pair: `fetchSrc` gives the result of `get_contract_source` and
`fetchByte` the result of `get_contract_bytecode`; `now` stands for
`datetime.now().isoformat()`. A record whose `Runs` field fails `int()`
raises after the hashes were added to the seen sets and before the record is
appended, so it is skipped while its hashes stay recorded — the embedding
reproduces that order. Returns the emitted records together with the final
seen-hash sets. -/
def scanAddresses (fetchSrc : String → Option SourcePayload) (fetchByte : String → Option String)
    (now chain : String) (chain_id : Int) :
    List String → List String → List String → List ContractData × List String × List String
  | [], sB, sS => ([], sB, sS)
  | address :: rest, sB, sS =>
    match fetchSrc address with
    | none => scanAddresses fetchSrc fetchByte now chain chain_id rest sB sS
    | some sd =>
      if sd.SourceCode.getD "" = "" then
        scanAddresses fetchSrc fetchByte now chain chain_id rest sB sS
      else
        match fetchByte address with
        | none => scanAddresses fetchSrc fetchByte now chain chain_id rest sB sS
        | some bytecode =>
          if bytecode = "" then
            scanAddresses fetchSrc fetchByte now chain chain_id rest sB sS
          else
            let bytecode_hash := _generate_bytecode_hash bytecode
            let source_hash := _generate_source_hash (sd.SourceCode.getD "")
            if _is_duplicate_contract sB sS bytecode_hash source_hash then
              scanAddresses fetchSrc fetchByte now chain chain_id rest sB sS
            else
              match parseRuns sd.Runs with
              | none =>
                scanAddresses fetchSrc fetchByte now chain chain_id rest
                  (bytecode_hash :: sB) (source_hash :: sS)
              | some runs =>
                let c : ContractData :=
                  { address := address
                    name := sd.ContractName.getD "Unknown"
                    source_code := sd.SourceCode.getD ""
                    bytecode := bytecode
                    compiler_version := sd.CompilerVersion.getD ""
                    optimization := sd.OptimizationUsed.getD "0" = "1"
                    runs := runs
                    constructor_arguments := sd.ConstructorArguments.getD ""
                    abi := sd.ABI.getD ""
                    creation_txhash := ""
                    block_number := 0
                    chain := chain
                    chain_id := chain_id
                    verified_date := now
                    bytecode_hash := bytecode_hash
                    source_hash := source_hash }
                let t := scanAddresses fetchSrc fetchByte now chain chain_id rest
                  (bytecode_hash :: sB) (source_hash :: sS)
                (c :: t.1, t.2)

/-- The hard-coded Ethereum candidate list of `get_verified_contracts`. -/
def eth_test_addresses : List String :=
  ["0xdAC17F958D2ee523a2206206994597C13D831ec7",
   "0x6B175474E89094C44Da98b954EedeAC495271d0F",
   "0x1f9840a85d5aF5bf1D1762F925BDADdC4201F984",
   "0xA0b86a33E6441c35d55E8BaBf441A9E3A7b1b9B8",
   "0x514910771AF9Ca656af840dff83E8264EcF986CA"]

/-- The hard-coded Base candidate list of `get_verified_contracts`. -/
def base_test_addresses : List String :=
  ["0x4200000000000000000000000000000000000006",
   "0x833589fCD6eDb6E08f4c7C32D4f71b54bdA02913",
   "0x50c5725949A6F0c72E6C4a641F24049A917DB0Cb",
   "0x2Ae3F1Ec7F1F5012CFEab0185bfc7aa3cf0DEc22",
   "0x940181a94A35A4569E4529A3CDfB74e38FD98631"]

/-- The scan loop `for address in test_addresses[:limit]` generalized over the
candidate list: the limit truncates the candidate list before scanning. -/
def scanCandidates (fetchSrc : String → Option SourcePayload) (fetchByte : String → Option String)
    (now chain : String) (chain_id : Int) (candidates : List String)
    (sB sS : List String) (limit : Nat) : List ContractData × List String × List String :=
  scanAddresses fetchSrc fetchByte now chain chain_id (candidates.take limit) sB sS

/-- Embedding of `EnhancedBlockchainClient.get_verified_contracts`: the chain
picks its hard-coded candidate list, then the loop runs over
`test_addresses[:limit]`. -/
def get_verified_contracts (fetchSrc : String → Option SourcePayload)
    (fetchByte : String → Option String) (now chain_name : String) (chain_id : Int)
    (sB sS : List String) (limit : Nat) : List ContractData × List String × List String :=
  scanCandidates fetchSrc fetchByte now chain_name chain_id
    (if chain_name = "base" then base_test_addresses else eth_test_addresses) sB sS limit

/-- Scanner that follows the words of the spec for claim C6 (refinement
comparison only): iterate the whole candidate list and stop once `limit`
records have been accepted, so skipped addresses do not consume the limit. -/
def specScanLoop (fetchSrc : String → Option SourcePayload) (fetchByte : String → Option String)
    (now chain : String) (chain_id : Int) :
    List String → List String → List String → Nat → List ContractData
  | [], _, _, _ => []
  | _, _, _, 0 => []
  | address :: rest, sB, sS, Nat.succ k =>
    match fetchSrc address with
    | none => specScanLoop fetchSrc fetchByte now chain chain_id rest sB sS (Nat.succ k)
    | some sd =>
      if sd.SourceCode.getD "" = "" then
        specScanLoop fetchSrc fetchByte now chain chain_id rest sB sS (Nat.succ k)
      else
        match fetchByte address with
        | none => specScanLoop fetchSrc fetchByte now chain chain_id rest sB sS (Nat.succ k)
        | some bytecode =>
          if bytecode = "" then
            specScanLoop fetchSrc fetchByte now chain chain_id rest sB sS (Nat.succ k)
          else
            let bytecode_hash := _generate_bytecode_hash bytecode
            let source_hash := _generate_source_hash (sd.SourceCode.getD "")
            if _is_duplicate_contract sB sS bytecode_hash source_hash then
              specScanLoop fetchSrc fetchByte now chain chain_id rest sB sS (Nat.succ k)
            else
              match parseRuns sd.Runs with
              | none =>
                specScanLoop fetchSrc fetchByte now chain chain_id rest
                  (bytecode_hash :: sB) (source_hash :: sS) (Nat.succ k)
              | some runs =>
                { address := address
                  name := sd.ContractName.getD "Unknown"
                  source_code := sd.SourceCode.getD ""
                  bytecode := bytecode
                  compiler_version := sd.CompilerVersion.getD ""
                  optimization := sd.OptimizationUsed.getD "0" = "1"
                  runs := runs
                  constructor_arguments := sd.ConstructorArguments.getD ""
                  abi := sd.ABI.getD ""
                  creation_txhash := ""
                  block_number := 0
                  chain := chain
                  chain_id := chain_id
                  verified_date := now
                  bytecode_hash := bytecode_hash
                  source_hash := source_hash } ::
                specScanLoop fetchSrc fetchByte now chain chain_id rest
                  (bytecode_hash :: sB) (source_hash :: sS) k

/-! ## Orchestrator (`BlockchainClientManager.get_all_verified_contracts`) -/

/-- The orchestrator's global dedup pass over one chain's records: a record is
kept only when neither hash is in the corresponding global set; both hashes of
a kept record are added. Returns the kept records and the updated global
sets. -/
def applyGlobalDedup : List String → List String → List ContractData →
    List ContractData × List String × List String
  | gb, gs, [] => ([], gb, gs)
  | gb, gs, c :: cs =>
    if c.bytecode_hash ∉ gb ∧ c.source_hash ∉ gs then
      let t := applyGlobalDedup (c.bytecode_hash :: gb) (c.source_hash :: gs) cs
      (c :: t.1, t.2)
    else applyGlobalDedup gb gs cs

/-- The per-chain loop of `get_all_verified_contracts`: each chain either
raises (the `except` arm logs and moves on, contributing nothing) or yields a
record list that goes through the global dedup pass; survivors are appended in
order. -/
def gatherChains : List String → List String →
    List (Except String (List ContractData)) → List ContractData
  | _, _, [] => []
  | gb, gs, (Except.error _) :: rest => gatherChains gb gs rest
  | gb, gs, (Except.ok cs) :: rest =>
    let t := applyGlobalDedup gb gs cs
    t.1 ++ gatherChains t.2.1 t.2.2 rest

/-- Embedding of `BlockchainClientManager.get_all_verified_contracts`: the
orchestrator-scoped global hash sets start empty on every call. -/
def get_all_verified_contracts
    (chainResults : List (Except String (List ContractData))) : List ContractData :=
  gatherChains [] [] chainResults

/-! ## Contract store (`ContractDatabase`) -/

/-- A row of the `contracts` table. `created_at` models the
`CURRENT_TIMESTAMP` default as a strictly increasing insertion counter, which
is what `ORDER BY created_at DESC` consumes. -/
structure DbRow where
  contract : ContractData
  contract_summary : String
  created_at : Nat
deriving DecidableEq

/-- Embedding of `ContractDatabase.insert_contract`: a SELECT first looks for
any row sharing either hash; if one exists the insert is skipped and `false`
returned with the table unchanged, otherwise the row is appended and `true`
returned. -/
def insert_contract (db : List DbRow) (contract : ContractData) (summary : String) :
    Bool × List DbRow :=
  if db.any (fun r => r.contract.bytecode_hash == contract.bytecode_hash ||
                      r.contract.source_hash == contract.source_hash) then
    (false, db)
  else
    (true, db ++ [⟨contract, summary, db.length⟩])

/-- The optional filters `get_contracts` understands; `none` models an absent
dictionary key. -/
structure ContractFilters where
  chain : Option String
  name : Option String
  compiler_version : Option String
  optimization : Option Bool
  address : Option String

/-- Empty filter set (no keys present). -/
def noFilters : ContractFilters := ⟨none, none, none, none, none⟩

def startsWithL : List Char → List Char → Bool
  | _, [] => true
  | [], _ :: _ => false
  | c :: cs, p :: ps => c == p && startsWithL cs ps

def containsSub : List Char → List Char → Bool
  | [], p => p.isEmpty
  | c :: cs, p => startsWithL (c :: cs) p || containsSub cs p

/-- Model of SQLite `col LIKE '%pat%'` (ASCII case-insensitive substring). -/
def sqlLike (col pat : String) : Bool :=
  containsSub (pyLower col).data (pyLower pat).data

/-- The WHERE clause built by `get_contracts`. -/
def rowMatches (f : ContractFilters) (r : DbRow) : Bool :=
  (match f.chain with | none => true | some v => r.contract.chain == v) &&
  (match f.name with | none => true | some v => sqlLike r.contract.name v) &&
  (match f.compiler_version with | none => true | some v => sqlLike r.contract.compiler_version v) &&
  (match f.optimization with | none => true | some v => r.contract.optimization == v) &&
  (match f.address with | none => true | some v => r.contract.address == v)

/-- Embedding of `ContractDatabase.get_contracts`. `if limit:` adds a LIMIT
clause only for a non-`None`, non-zero limit, and `if offset:` adds an OFFSET
clause only for a non-zero offset. SQLite's grammar only admits OFFSET after
LIMIT, so an OFFSET clause without a LIMIT clause makes `execute` raise an
OperationalError, which the enclosing `except` converts to `[]`. Otherwise
the rows are filtered, ordered newest-first, and a negative LIMIT means
unlimited while a negative OFFSET skips nothing (SQLite semantics). -/
def get_contracts (db : List DbRow) (filters : ContractFilters)
    (limit : Option Int) (offset : Int) : List DbRow :=
  let hasLimitClause : Bool := match limit with | none => false | some l => l != 0
  let hasOffsetClause : Bool := offset != 0
  if hasOffsetClause && !hasLimitClause then []
  else
    let ordered := (db.filter (rowMatches filters)).reverse
    if hasLimitClause then
      let l := limit.getD 0
      let dropped := if hasOffsetClause then ordered.drop offset.toNat else ordered
      if l < 0 then dropped else dropped.take l.toNat
    else ordered

/-! ## System coordinator (`Web3LOCSystem.discover_contracts`) -/

/-- The result dictionary `discover_contracts` returns. The failure branches
of the Python code omit the `readme_files` key; the embedding uses `[]`
there. -/
structure DiscoveryResults where
  success : Bool
  message : String
  contracts_processed : Nat
  contracts_added : Nat
  duplicates_found : Nat
  errors : Nat
  readme_files : List String
deriving DecidableEq

/-- The per-contract loop of `_process_contracts`: each record is summarized
(the `analyze` collaborator), then offered to the store; an accepted record
bumps `contracts_added` and, when requested, appends a README path, a
rejected one bumps `duplicates_found`. The `errors` counter only counts
exceptions escaping a loop body; `analyze_contract` and `insert_contract`
both swallow their own exceptions, so no loop iteration raises and the
counter stays 0. Returns (added, duplicates, readme files, final table). -/
def processLoop (analyze : ContractData → String) (generate_readmes : Bool)
    (readme_path : ContractData → String) :
    List ContractData → List DbRow → Nat × Nat × List String × List DbRow
  | [], db => (0, 0, [], db)
  | c :: cs, db =>
    let summary := analyze c
    let r := insert_contract db c summary
    let t := processLoop analyze generate_readmes readme_path cs r.2
    if r.1 then
      (t.1 + 1, t.2.1, (if generate_readmes then readme_path c :: t.2.2.1 else t.2.2.1), t.2.2.2)
    else
      (t.1, t.2.1 + 1, t.2.2.1, t.2.2.2)

/-- Embedding of `Web3LOCSystem._process_contracts`. -/
def _process_contracts (analyze : ContractData → String) (generate_readmes : Bool)
    (readme_path : ContractData → String) (contracts : List ContractData)
    (db : List DbRow) : DiscoveryResults × List DbRow :=
  let t := processLoop analyze generate_readmes readme_path contracts db
  ({ success := true
     message := ""
     contracts_processed := contracts.length
     contracts_added := t.1
     duplicates_found := t.2.1
     errors := 0
     readme_files := t.2.2.1 }, t.2.2.2)

/-- Embedding of `Web3LOCSystem.discover_contracts`: merge the per-chain
results through the orchestrator, return the early "No contracts found"
result when the merged list is empty, otherwise process and store. -/
def discover_contracts (chainResults : List (Except String (List ContractData)))
    (analyze : ContractData → String) (generate_readmes : Bool)
    (readme_path : ContractData → String) (db : List DbRow) :
    DiscoveryResults × List DbRow :=
  let contracts := get_all_verified_contracts chainResults
  if contracts.isEmpty then
    ({ success := false
       message := "No contracts found"
       contracts_processed := 0
       contracts_added := 0
       duplicates_found := 0
       errors := 0
       readme_files := [] }, db)
  else
    _process_contracts analyze generate_readmes readme_path contracts db

/-! ## Fetcher request normalization (`EnhancedBlockchainClient._make_request`
and `__init__`) -/

/-- The fields of the upstream JSON body `_make_request` inspects, plus the
payload it passes through; `none` models an absent key. -/
structure ApiPayload where
  status : Option String
  message : Option String
  resultData : String
deriving DecidableEq

/-- What one HTTP interaction can come back as: an exception raised anywhere
inside the request, or a response with its HTTP status code and parsed JSON
body. -/
inductive RequestOutcome where
  | exn : String → RequestOutcome
  | http : Nat → ApiPayload → RequestOutcome
deriving DecidableEq

/-- Embedding of `_make_request`: a 200 response whose JSON `status` field is
the string "1" yields the payload; a non-200 status, a JSON-level error
status (missing or different), and an exception are all logged and normalized
to `None`. -/
def _make_request : RequestOutcome → Option ApiPayload
  | RequestOutcome.exn _ => none
  | RequestOutcome.http st payload =>
    if st = 200 then
      if payload.status = some "1" then some payload else none
    else none

/-- Chain configuration assembled by `EnhancedBlockchainClient.__init__`. -/
structure ClientConfig where
  chain_name : String
  api_key : String
  api_url : String
  chain_id : Int
deriving DecidableEq

/-- Embedding of `EnhancedBlockchainClient.__init__`: the lower-cased chain
name selects the API endpoint and key; an unsupported chain raises, and a
missing or empty key (`if not self.api_key`) raises. The two environment
variables are passed explicitly (`none` models an unset variable). -/
def clientInit (chain_name : String) (etherscanKey basescanKey : Option String) :
    Except String ClientConfig :=
  let cn := pyLower chain_name
  if cn = "ethereum" then
    match etherscanKey with
    | none => Except.error "No API key found for ethereum"
    | some k =>
      if k = "" then Except.error "No API key found for ethereum"
      else Except.ok ⟨cn, k, "https://api.etherscan.io/api", 1⟩
  else if cn = "base" then
    match basescanKey with
    | none => Except.error "No API key found for base"
    | some k =>
      if k = "" then Except.error "No API key found for base"
      else Except.ok ⟨cn, k, "https://api.basescan.org/api", 8453⟩
  else Except.error "Unsupported chain"

/-! ## Concrete sample data used by witnesses and counterexamples -/

/-- Source oracle for a three-address scenario: address "a" is unverified,
addresses "b" and "c" are verified with distinct sources. -/
def exFetchSrc : String → Option SourcePayload := fun a =>
  if a = "b" then some ⟨some "contract B", some "B", some "v1", some "1", some "200", some "", some "[]"⟩
  else if a = "c" then some ⟨some "contract C", some "C", some "v1", some "1", some "200", some "", some "[]"⟩
  else none

/-- Bytecode oracle matching `exFetchSrc`: distinct bytecode for "b" and "c". -/
def exFetchByte : String → Option String := fun a =>
  if a = "b" then some "0x6001" else if a = "c" then some "0x6002" else none

/-- A sample record as chain B would emit it. -/
def cB : ContractData :=
  { address := "0xb", name := "B", source_code := "contract B", bytecode := "0x6001",
    compiler_version := "v1", optimization := true, runs := 200, constructor_arguments := "",
    abi := "[]", creation_txhash := "", block_number := 0, chain := "base", chain_id := 8453,
    verified_date := "t", bytecode_hash := "hb", source_hash := "hs" }

/-- Sample record with bytecode hash "h1" and source hash "s1". -/
def cA : ContractData :=
  { address := "0xa", name := "A", source_code := "contract A", bytecode := "0x6001",
    compiler_version := "v1", optimization := true, runs := 200, constructor_arguments := "",
    abi := "[]", creation_txhash := "", block_number := 0, chain := "ethereum", chain_id := 1,
    verified_date := "t", bytecode_hash := "h1", source_hash := "s1" }

/-- Sample record sharing `cA`'s bytecode hash but with a novel source hash. -/
def cD : ContractData :=
  { address := "0xd", name := "D", source_code := "contract D", bytecode := "0x6001",
    compiler_version := "v1", optimization := true, runs := 200, constructor_arguments := "",
    abi := "[]", creation_txhash := "", block_number := 0, chain := "base", chain_id := 8453,
    verified_date := "t", bytecode_hash := "h1", source_hash := "s2" }

/-- An all-empty record, used only as a `getD` default. -/
def dummyContract : ContractData :=
  { address := "", name := "", source_code := "", bytecode := "", compiler_version := "",
    optimization := false, runs := 0, constructor_arguments := "", abi := "",
    creation_txhash := "", block_number := 0, chain := "", chain_id := 0,
    verified_date := "", bytecode_hash := "", source_hash := "" }

/-- The records the embedded scanner emits in the three-address scenario with
limit 2. -/
def exScanOut : List ContractData :=
  (scanCandidates exFetchSrc exFetchByte "2024" "ethereum" 1 ["a", "b", "c"] [] [] 2).1

/-! ## Helper lemmas -/

/-- The duplicate check is exactly an OR of the two set memberships. -/
theorem is_duplicate_eq (sB sS : List String) (bh sh : String) :
    _is_duplicate_contract sB sS bh sh = true ↔ (bh ∈ sB ∨ sh ∈ sS) := by
  by_cases h1 : bh ∈ sB <;> by_cases h2 : sh ∈ sS <;>
    simp [_is_duplicate_contract, h1, h2]

/-- Failure form of the duplicate check. -/
theorem is_duplicate_eq_false (sB sS : List String) (bh sh : String) :
    _is_duplicate_contract sB sS bh sh = false ↔ (bh ∉ sB ∧ sh ∉ sS) := by
  by_cases h1 : bh ∈ sB <;> by_cases h2 : sh ∈ sS <;>
    simp [_is_duplicate_contract, h1, h2]

/-- Insertion hits the SELECT short-circuit exactly when a row shares a hash. -/
theorem insert_contract_conflict (db : List DbRow) (c : ContractData) (s : String)
    (h : ∃ r ∈ db, r.contract.bytecode_hash = c.bytecode_hash ∨
         r.contract.source_hash = c.source_hash) :
    insert_contract db c s = (false, db) := by
  unfold insert_contract
  rw [if_pos]
  rw [List.any_eq_true]
  obtain ⟨r, hr, hor⟩ := h
  refine ⟨r, hr, ?_⟩
  rcases hor with h1 | h1 <;> simp [h1]

/-- Insertion appends exactly when no row shares a hash. -/
theorem insert_contract_fresh (db : List DbRow) (c : ContractData) (s : String)
    (h : ∀ r ∈ db, r.contract.bytecode_hash ≠ c.bytecode_hash ∧
         r.contract.source_hash ≠ c.source_hash) :
    insert_contract db c s = (true, db ++ [⟨c, s, db.length⟩]) := by
  unfold insert_contract
  rw [if_neg]
  simp only [List.any_eq_true, not_exists]
  intro r
  simp only [not_and]
  intro hr
  have := h r hr
  simp [this.1, this.2]

/-! ## Claim theorems -/

/-- Claim C1: for every pair of hashes, `_is_duplicate_contract` returns true
if and only if the bytecode hash is in the seen-bytecode set or the source
hash is in the seen-source set; in particular a bytecode-hash match alone
rejects even when the source hash is novel, and a source-hash match alone
rejects even when the bytecode hash is novel. -/
theorem c1_or_based_duplicate_detection (sB sS : List String) (bh sh : String) :
    (_is_duplicate_contract sB sS bh sh = true ↔ (bh ∈ sB ∨ sh ∈ sS)) ∧
    (bh ∈ sB → sh ∉ sS → _is_duplicate_contract sB sS bh sh = true) ∧
    (sh ∈ sS → bh ∉ sB → _is_duplicate_contract sB sS bh sh = true) := by
  refine ⟨is_duplicate_eq sB sS bh sh, ?_, ?_⟩
  · intro h1 _
    exact (is_duplicate_eq sB sS bh sh).mpr (Or.inl h1)
  · intro h1 _
    exact (is_duplicate_eq sB sS bh sh).mpr (Or.inr h1)

/-- Claim C1 witness at concrete inputs. -/
theorem c1_or_based_duplicate_detection_witness :
    _is_duplicate_contract ["x1"] ["y1"] "x1" "y9" = true ∧
    _is_duplicate_contract ["x1"] ["y1"] "x9" "y1" = true := by
  refine ⟨(c1_or_based_duplicate_detection ["x1"] ["y1"] "x1" "y9").2.1 ?_ ?_,
          (c1_or_based_duplicate_detection ["x1"] ["y1"] "x9" "y1").2.2 ?_ ?_⟩ <;> decide

/-- Claim C3: when any stored row already holds the record's bytecode hash or
source hash, `insert_contract` returns false and leaves the table unchanged
(no exception is modelled because the code catches everything); consequently
inserting the same record twice into a conflict-free table admits it exactly
once — the first call appends it, the second returns false and changes
nothing. -/
theorem c3_insert_idempotent_atomic (db : List DbRow) (c : ContractData) (s1 s2 : String)
    (hfree : ∀ r ∈ db, r.contract.bytecode_hash ≠ c.bytecode_hash ∧
             r.contract.source_hash ≠ c.source_hash) :
    (∀ (db' : List DbRow) (s : String),
      (∃ r ∈ db', r.contract.bytecode_hash = c.bytecode_hash ∨
        r.contract.source_hash = c.source_hash) →
      insert_contract db' c s = (false, db')) ∧
    insert_contract db c s1 = (true, db ++ [⟨c, s1, db.length⟩]) ∧
    insert_contract (db ++ [⟨c, s1, db.length⟩]) c s2 =
      (false, db ++ [⟨c, s1, db.length⟩]) := by
  refine ⟨fun db' s h => insert_contract_conflict db' c s h,
          insert_contract_fresh db c s1 hfree, ?_⟩
  exact insert_contract_conflict _ c s2
    ⟨⟨c, s1, db.length⟩, by simp, Or.inl rfl⟩

/-- Claim C3 witness: inserting `cB` twice into an empty table. -/
theorem c3_insert_idempotent_atomic_witness :
    insert_contract [] cB "s" = (true, [⟨cB, "s", 0⟩]) ∧
    insert_contract [⟨cB, "s", 0⟩] cB "t" = (false, [⟨cB, "s", 0⟩]) := by
  have h := c3_insert_idempotent_atomic [] cB "s" "t" (by simp)
  exact ⟨h.2.1, h.2.2⟩

/-- Claim C10: a query with a nonzero offset and no limit (or a zero limit,
which `if limit:` treats as absent) produces SQL with an OFFSET clause and no
LIMIT clause; SQLite rejects it and the caught error yields the empty list.
A zero limit with zero offset behaves exactly like no limit at all and
returns every matching row, newest first. -/
theorem c10_offset_without_limit (db : List DbRow) (f : ContractFilters)
    (offset : Int) (hoff : offset ≠ 0) :
    get_contracts db f none offset = [] ∧
    get_contracts db f (some 0) offset = [] ∧
    get_contracts db f (some 0) 0 = get_contracts db f none 0 ∧
    get_contracts db f none 0 = (db.filter (rowMatches f)).reverse := by
  refine ⟨?_, ?_, ?_, ?_⟩ <;> simp [get_contracts, hoff]

/-- Claim C10 witness: one-row table, offset 3 and no limit yields nothing;
limit 0 yields the whole table. -/
theorem c10_offset_without_limit_witness :
    get_contracts [⟨cB, "s", 0⟩] noFilters none 3 = [] ∧
    get_contracts [⟨cB, "s", 0⟩] noFilters (some 0) 0 = [⟨cB, "s", 0⟩] := by
  have h := c10_offset_without_limit [⟨cB, "s", 0⟩] noFilters 3 (by decide)
  refine ⟨h.1, ?_⟩
  rw [h.2.2.1, h.2.2.2]
  decide

/-- Claim C7: an exception, a non-200 HTTP status and a JSON status other
than "1" are all normalized by `_make_request` to `none` — the request helper
returns data exactly for a 200 response whose JSON status is "1" and never
propagates a failure; construction (`__init__`) succeeds exactly for the
supported chains with a present, non-empty API key, and raises otherwise. -/
theorem c7_fetch_error_normalization (o : RequestOutcome) (d : ApiPayload)
    (chain : String) (ek bk : Option String) :
    (_make_request o = some d ↔ o = RequestOutcome.http 200 d ∧ d.status = some "1") ∧
    (∀ m, _make_request (RequestOutcome.exn m) = none) ∧
    (∀ st p, st ≠ 200 → _make_request (RequestOutcome.http st p) = none) ∧
    (∀ st p, p.status ≠ some "1" → _make_request (RequestOutcome.http st p) = none) ∧
    ((∃ cfg, clientInit chain ek bk = Except.ok cfg) ↔
      ((pyLower chain = "ethereum" ∧ ∃ k, ek = some k ∧ k ≠ "") ∨
       (pyLower chain = "base" ∧ ∃ k, bk = some k ∧ k ≠ ""))) := by
  refine ⟨?_, fun m => rfl, ?_, ?_, ?_⟩
  · cases o with
    | exn m => simp [_make_request]
    | http st p =>
      by_cases hst : st = 200 <;> by_cases hp : p.status = some "1" <;>
        simp [_make_request, hst, hp] <;> aesop
  · intro st p hst
    simp [_make_request, hst]
  · intro st p hp
    by_cases hst : st = 200 <;> simp [_make_request, hst, hp]
  · unfold clientInit
    by_cases he : pyLower chain = "ethereum"
    · rcases ek with _ | k
      · simp [he]
      · by_cases hk : k = "" <;> simp [he, hk]
    · by_cases hb : pyLower chain = "base"
      · rcases bk with _ | k
        · simp [he, hb]
        · by_cases hk : k = "" <;> simp [he, hb, hk]
      · simp [he, hb]

/-- Claim C7 witness: a 404 response and a status-"0" payload both normalize
to `none`; constructing an Ethereum client with a present key succeeds. -/
theorem c7_fetch_error_normalization_witness :
    _make_request (RequestOutcome.http 404 ⟨some "1", none, "r"⟩) = none ∧
    _make_request (RequestOutcome.http 200 ⟨some "0", none, "r"⟩) = none ∧
    _make_request (RequestOutcome.exn "timeout") = none ∧
    (∃ cfg, clientInit "Ethereum" (some "KEY") none = Except.ok cfg) := by
  have h := c7_fetch_error_normalization (RequestOutcome.exn "timeout")
    ⟨some "1", none, "r"⟩ "Ethereum" (some "KEY") none
  refine ⟨h.2.2.1 404 ⟨some "1", none, "r"⟩ (by decide),
          h.2.2.2.1 200 ⟨some "0", none, "r"⟩ (by decide),
          h.2.1 "timeout",
          h.2.2.2.2.mpr (Or.inl ⟨by decide, "KEY", rfl, by decide⟩)⟩

/-- Replacing `0x` everywhere is the identity on strings without an `x`. -/
theorem remove0xAll_no_x (l : List Char) (h : 'x' ∉ l) : remove0xAll l = l := by
  induction l using remove0xAll.induct with
  | case1 rest ih => simp at h
  | case2 c rest hne ih =>
    rw [remove0xAll.eq_def]
    split
    · rename_i heq; rw [heq] at h; simp at h
    · rename_i c' rest' heq
      cases heq
      rw [ih (fun hx => h (List.mem_cons_of_mem _ hx))]
    · rename_i heq
      simp at heq
  | case3 => rfl

/-- A list either keeps its shape under prefix stripping or starts with 0x. -/
theorem stripLead0x_cases (l : List Char) :
    stripLead0x l = l ∨ ∃ rest, l = '0' :: 'x' :: rest ∧ stripLead0x l = rest := by
  rw [stripLead0x.eq_def]
  split
  · rename_i rest; exact Or.inr ⟨rest, rfl, rfl⟩
  · exact Or.inl rfl

/-- On strings whose prefix-stripped remainder has no `x`, replace-all and
prefix-strip agree. -/
theorem remove0xAll_stripLead (l : List Char) (h : 'x' ∉ stripLead0x l) :
    remove0xAll l = stripLead0x l := by
  rcases stripLead0x_cases l with heq | ⟨rest, hl, heq⟩
  · rw [heq] at h ⊢
    exact remove0xAll_no_x l h
  · rw [heq] at h ⊢
    rw [hl]
    show remove0xAll rest = rest
    exact remove0xAll_no_x rest h

/-- On well-formed inputs the code's bytecode hash equals the spec's. -/
theorem bytecode_hash_strip_coincide (b : String)
    (h : 'x' ∉ (specStrip0x (pyLower b)).data) :
    _generate_bytecode_hash b = specBytecodeHash b := by
  unfold _generate_bytecode_hash specBytecodeHash strBytes specStrip0x
  have hr : remove0xAll (pyLower b).data = stripLead0x (pyLower b).data :=
    remove0xAll_stripLead _ h
  rw [hr]

/-- Prepending a `0x` prefix never changes the bytecode hash. -/
theorem bytecode_hash_0x_invariant (b : String) :
    _generate_bytecode_hash ("0x" ++ b) = _generate_bytecode_hash b := by
  unfold _generate_bytecode_hash pyLower
  have hd : ("0x" ++ b).data = '0' :: 'x' :: b.data := by
    rw [String.data_append]
    rfl
  have h0 : Char.toLower '0' = '0' := rfl
  have hx : Char.toLower 'x' = 'x' := rfl
  rw [hd, List.map_cons, List.map_cons, h0, hx]
  rfl

/-- The single space is whitespace. -/
theorem isPySpace_space : isPySpace ' ' = true := rfl

/-- Splitting is insensitive to collapsing whitespace runs first. -/
theorem wordsAux_collapse (l : List Char) : ∀ acc,
    wordsAux (collapseRuns l) acc = wordsAux l acc := by
  induction l with
  | nil => intro acc; rfl
  | cons c1 l1 ih =>
    intro acc
    cases l1 with
    | nil =>
      by_cases h : isPySpace c1 = true <;>
        simp [collapseRuns, wordsAux, h, isPySpace_space]
    | cons c2 l2 =>
      by_cases h1 : isPySpace c1 = true <;> by_cases h2 : isPySpace c2 = true
      · by_cases hacc : acc = [] <;>
          simp [collapseRuns, wordsAux, h1, h2, hacc, ih, isPySpace_space]
      · by_cases hacc : acc = [] <;>
          simp [collapseRuns, wordsAux, h1, h2, hacc, ih, isPySpace_space]
      · by_cases hacc : acc = [] <;>
          simp [collapseRuns, wordsAux, h1, h2, hacc, ih, isPySpace_space]
      · simp [collapseRuns, wordsAux, h1, h2, ih, isPySpace_space]

/-- Every word produced by splitting is non-empty and whitespace-free. -/
theorem wordsAux_wf (l : List Char) : ∀ acc, (∀ c ∈ acc, isPySpace c = false) →
    ∀ w ∈ wordsAux l acc, w ≠ [] ∧ ∀ c ∈ w, isPySpace c = false := by
  induction l with
  | nil =>
    intro acc hacc w hw
    by_cases h : acc = []
    · simp [wordsAux, h] at hw
    · simp only [wordsAux, if_neg h, List.mem_singleton] at hw
      subst hw
      refine ⟨by simp [h], ?_⟩
      intro c hc
      exact hacc c (List.mem_reverse.mp hc)
  | cons c1 l1 ih =>
    intro acc hacc w hw
    by_cases h1 : isPySpace c1 = true
    · by_cases hacc0 : acc = []
      · simp only [wordsAux, h1, if_pos rfl, if_pos hacc0, if_true] at hw
        exact ih [] (by simp) w hw
      · simp only [wordsAux, h1, if_true, if_neg hacc0, List.mem_cons] at hw
        rcases hw with hw | hw
        · subst hw
          refine ⟨by simp [hacc0], ?_⟩
          intro c hc
          exact hacc c (List.mem_reverse.mp hc)
        · exact ih [] (by simp) w hw
    · simp only [wordsAux, h1, if_false, Bool.false_eq_true] at hw
      refine ih (c1 :: acc) ?_ w hw
      intro c hc
      rcases List.mem_cons.mp hc with hc | hc
      · subst hc
        exact Bool.not_eq_true _ ▸ (by simpa using h1)
      · exact hacc c hc

/-- Joining a non-empty word list is never empty. -/
theorem joinWordsL_ne_nil (w : List Char) (ws : List (List Char)) (hw : w ≠ []) :
    joinWordsL (w :: ws) ≠ [] := by
  cases ws <;> simp [joinWordsL, hw]

theorem takeWhile_all_nonspace (w : List Char) (hw : ∀ c ∈ w, isPySpace c = false) :
    w.takeWhile (fun c => !isPySpace c) = w := by
  induction w with
  | nil => rfl
  | cons c cs ih =>
    have hc := hw c (by simp)
    simp only [List.takeWhile_cons, hc, Bool.not_false, if_pos rfl, if_true]
    rw [ih (fun d hd => hw d (by simp [hd]))]

theorem dropWhile_all_nonspace (w : List Char) (hw : ∀ c ∈ w, isPySpace c = false) :
    w.dropWhile (fun c => !isPySpace c) = [] := by
  induction w with
  | nil => rfl
  | cons c cs ih =>
    have hc := hw c (by simp)
    simp only [List.dropWhile_cons, hc, Bool.not_false, if_pos rfl, if_true]
    exact ih (fun d hd => hw d (by simp [hd]))

theorem takeWhile_word_join (w t : List Char) (hw : ∀ c ∈ w, isPySpace c = false) :
    (w ++ ' ' :: t).takeWhile (fun c => !isPySpace c) = w := by
  induction w with
  | nil => simp [List.takeWhile_cons, isPySpace_space]
  | cons c cs ih =>
    have hc := hw c (by simp)
    simp only [List.cons_append, List.takeWhile_cons, hc, Bool.not_false, if_pos rfl, if_true]
    rw [ih (fun d hd => hw d (by simp [hd]))]

theorem dropWhile_word_join (w t : List Char) (hw : ∀ c ∈ w, isPySpace c = false) :
    (w ++ ' ' :: t).dropWhile (fun c => !isPySpace c) = ' ' :: t := by
  induction w with
  | nil => simp [List.dropWhile_cons, isPySpace_space]
  | cons c cs ih =>
    have hc := hw c (by simp)
    simp only [List.cons_append, List.dropWhile_cons, hc, Bool.not_false, if_pos rfl, if_true]
    exact ih (fun d hd => hw d (by simp [hd]))

/-- The first word of a join is recovered by taking non-whitespace. -/
theorem joinWordsL_take_head (w : List Char) (ws : List (List Char))
    (hw : ∀ c ∈ w, isPySpace c = false) :
    (joinWordsL (w :: ws)).takeWhile (fun c => !isPySpace c) = w := by
  cases ws with
  | nil => exact takeWhile_all_nonspace w hw
  | cons w2 rest => exact takeWhile_word_join w _ hw

/-- Joining with single spaces is injective on lists of non-empty,
whitespace-free words. -/
theorem joinWordsL_inj (ws1 : List (List Char)) : ∀ ws2 : List (List Char),
    (∀ w ∈ ws1, w ≠ [] ∧ ∀ c ∈ w, isPySpace c = false) →
    (∀ w ∈ ws2, w ≠ [] ∧ ∀ c ∈ w, isPySpace c = false) →
    joinWordsL ws1 = joinWordsL ws2 → ws1 = ws2 := by
  induction ws1 with
  | nil =>
    intro ws2 _ h2 heq
    cases ws2 with
    | nil => rfl
    | cons w2 rest2 =>
      exact absurd heq.symm (joinWordsL_ne_nil w2 rest2 (h2 w2 (by simp)).1)
  | cons w1 rest1 ih =>
    intro ws2 h1 h2 heq
    cases ws2 with
    | nil => exact absurd heq (joinWordsL_ne_nil w1 rest1 (h1 w1 (by simp)).1)
    | cons w2 rest2 =>
      have hw1 := (h1 w1 (by simp)).2
      have hw2 := (h2 w2 (by simp)).2
      have htake : w1 = w2 := by
        have hcg := congrArg (List.takeWhile (fun c => !isPySpace c)) heq
        rwa [joinWordsL_take_head w1 rest1 hw1, joinWordsL_take_head w2 rest2 hw2] at hcg
      subst htake
      have hdrop := congrArg (List.dropWhile (fun c => !isPySpace c)) heq
      cases rest1 with
      | nil =>
        cases rest2 with
        | nil => rfl
        | cons y ys =>
          rw [show joinWordsL [w1] = w1 from rfl,
              show joinWordsL (w1 :: y :: ys) = w1 ++ ' ' :: joinWordsL (y :: ys) from rfl,
              dropWhile_all_nonspace w1 hw1, dropWhile_word_join w1 _ hw1] at hdrop
          exact absurd hdrop.symm (by simp)
      | cons x xs =>
        cases rest2 with
        | nil =>
          rw [show joinWordsL [w1] = w1 from rfl,
              show joinWordsL (w1 :: x :: xs) = w1 ++ ' ' :: joinWordsL (x :: xs) from rfl,
              dropWhile_all_nonspace w1 hw1, dropWhile_word_join w1 _ hw1] at hdrop
          exact absurd hdrop (by simp)
        | cons y ys =>
          rw [show joinWordsL (w1 :: x :: xs) = w1 ++ ' ' :: joinWordsL (x :: xs) from rfl,
              show joinWordsL (w1 :: y :: ys) = w1 ++ ' ' :: joinWordsL (y :: ys) from rfl,
              dropWhile_word_join w1 _ hw1, dropWhile_word_join w1 _ hw1] at hdrop
          have htail : joinWordsL (x :: xs) = joinWordsL (y :: ys) := by
            injection hdrop
          rw [ih (y :: ys) (fun w hwm => h1 w (List.mem_cons_of_mem _ hwm))
              (fun w hwm => h2 w (List.mem_cons_of_mem _ hwm)) htail]

/-- Texts with the same whitespace-collapsed form have the same source hash. -/
theorem source_hash_eq_of_collapse (s t : String)
    (h : specCollapseWs s = specCollapseWs t) :
    _generate_source_hash s = _generate_source_hash t := by
  have hd : collapseRuns s.data = collapseRuns t.data := congrArg String.data h
  have hsplit : pySplitWs s = pySplitWs t := by
    unfold pySplitWs
    rw [← wordsAux_collapse s.data [], ← wordsAux_collapse t.data [], hd]
  unfold _generate_source_hash
  rw [hsplit]

/-- Claim C4 counterexample: the claim says the bytecode hash equals the
digest of the lower-cased string with any `0x` prefix stripped. The string
"ab0xcd" has no `0x` prefix, yet the code's `replace('0x', '')` deletes the
internal occurrence and hashes "abcd", so the two digests differ. -/
theorem c4_counterexample :
    _generate_bytecode_hash "ab0xcd" ≠ specBytecodeHash "ab0xcd" := by decide

/-- Claim C4 (amended): the bytecode hash is the digest of the lower-cased
string with every occurrence of `0x` removed; this coincides with stripping
one leading `0x` exactly on inputs whose prefix-stripped lower case contains
no further `x` (in particular on well-formed hex bytecode). Casing and the
presence of a `0x` prefix never affect the digest, the function is total and
deterministic, and the empty string maps to the well-known SHA-256 empty
digest. -/
theorem c4_bytecode_hash_canonicalization (b : String)
    (h : 'x' ∉ (specStrip0x (pyLower b)).data) :
    _generate_bytecode_hash b = sha256hex (bytesOfChars (remove0xAll (pyLower b).data)) ∧
    _generate_bytecode_hash b = specBytecodeHash b ∧
    (∀ d : String, _generate_bytecode_hash ("0x" ++ d) = _generate_bytecode_hash d) ∧
    (∀ d e : String, pyLower d = pyLower e →
      _generate_bytecode_hash d = _generate_bytecode_hash e) ∧
    _generate_bytecode_hash "" =
      "e3b0c44298fc1c149afbf4c8996fb92427ae41e4649b934ca495991b7852b855" := by
  refine ⟨rfl, bytecode_hash_strip_coincide b h, bytecode_hash_0x_invariant, ?_, by decide⟩
  intro d e hde
  unfold _generate_bytecode_hash
  rw [hde]

/-- Claim C4 witness at the well-formed input "0xAB12" and a casing pair. -/
theorem c4_bytecode_hash_canonicalization_witness :
    _generate_bytecode_hash "0xAB12" = specBytecodeHash "0xAB12" ∧
    _generate_bytecode_hash "0xDEAD" = _generate_bytecode_hash "0xdead" := by
  have h := c4_bytecode_hash_canonicalization "0xAB12" (by decide)
  exact ⟨h.2.1, h.2.2.2.1 "0xDEAD" "0xdead" (by decide)⟩

/-- Claim C5 counterexample: the code hashes `' '.join(s.split())`, which also
strips leading whitespace, so for " a" its digest differs from the digest of
the collapsed text " a" demanded by the claim; moreover two texts that differ
in comment content (an extra space inside a comment) hash identically, against
the claim's assertion that comment differences always change the digest. -/
theorem c5_counterexample :
    _generate_source_hash " a" ≠ specSourceHash " a" ∧
    ("/* a */" ≠ ("/*  a */" : String) ∧
      _generate_source_hash "/* a */" = _generate_source_hash "/*  a */") := by
  refine ⟨by decide, by decide, by decide⟩

/-- Claim C5 (amended): the source hash is the digest of the text's
whitespace-separated words joined by single spaces — this collapses internal
whitespace runs and also strips leading and trailing whitespace. Texts with
the same collapsed form (differing only in whitespace runs) hash identically,
and texts with different word sequences — in particular different
non-whitespace comment content — feed different strings to the digest. -/
theorem c5_source_hash_normalization (s t : String)
    (h : specCollapseWs s = specCollapseWs t) :
    (∀ u : String, _generate_source_hash u =
      sha256hex (bytesOfChars (joinWordsL (pySplitWs u)))) ∧
    _generate_source_hash s = _generate_source_hash t ∧
    (∀ u v : String, pySplitWs u ≠ pySplitWs v →
      joinWordsL (pySplitWs u) ≠ joinWordsL (pySplitWs v)) := by
  refine ⟨fun u => rfl, source_hash_eq_of_collapse s t h, ?_⟩
  intro u v hne heq
  exact hne (joinWordsL_inj (pySplitWs u) (pySplitWs v)
    (wordsAux_wf u.data [] (by simp)) (wordsAux_wf v.data [] (by simp)) heq)

/-- Claim C5 witness: a whitespace-run pair hashing identically and a
token-differing pair with different digest inputs. -/
theorem c5_source_hash_normalization_witness :
    _generate_source_hash "a  b" = _generate_source_hash "a b" ∧
    joinWordsL (pySplitWs "x1") ≠ joinWordsL (pySplitWs "y1") := by
  have h := c5_source_hash_normalization "a  b" "a b" (by decide)
  exact ⟨h.2.1, h.2.2 "x1" "y1" (by decide)⟩

/-- The scan loop emits at most one record per scanned address. -/
theorem scanAddresses_length_le (fs : String → Option SourcePayload)
    (fb : String → Option String) (now chain : String) (cid : Int)
    (addrs : List String) : ∀ sB sS,
    (scanAddresses fs fb now chain cid addrs sB sS).1.length ≤ addrs.length := by
  induction addrs with
  | nil => intro sB sS; simp [scanAddresses]
  | cons a rest ih =>
    intro sB sS
    simp only [scanAddresses]
    rcases hfs : fs a with _ | sd
    · exact (ih sB sS).trans (Nat.le_succ _)
    · by_cases hsc : sd.SourceCode.getD "" = ""
      · simp only [hsc, if_pos rfl, if_true]
        exact (ih sB sS).trans (Nat.le_succ _)
      · simp only [if_neg hsc]
        rcases hfb : fb a with _ | bc
        · exact (ih sB sS).trans (Nat.le_succ _)
        · by_cases hbc : bc = ""
          · simp only [hbc, if_pos rfl, if_true]
            exact (ih sB sS).trans (Nat.le_succ _)
          · simp only [if_neg hbc]
            by_cases hdup : _is_duplicate_contract sB sS
                (_generate_bytecode_hash bc)
                (_generate_source_hash (sd.SourceCode.getD "")) = true
            · simp only [hdup, if_true]
              exact (ih sB sS).trans (Nat.le_succ _)
            · simp only [Bool.not_eq_true] at hdup
              simp only [hdup, Bool.false_eq_true, if_false]
              rcases hr : parseRuns sd.Runs with _ | runs
              · exact (ih _ _).trans (Nat.le_succ _)
              · simp only [List.length_cons]
                exact Nat.succ_le_succ (ih _ _)

/-- Every emitted record's address comes from the scanned candidate list. -/
theorem scanAddresses_addr_mem (fs : String → Option SourcePayload)
    (fb : String → Option String) (now chain : String) (cid : Int)
    (addrs : List String) : ∀ sB sS c,
    c ∈ (scanAddresses fs fb now chain cid addrs sB sS).1 → c.address ∈ addrs := by
  induction addrs with
  | nil => intro sB sS c hc; simp [scanAddresses] at hc
  | cons a rest ih =>
    intro sB sS c
    simp only [scanAddresses]
    rcases hfs : fs a with _ | sd
    · intro hc
      exact List.mem_cons_of_mem _ (ih sB sS c hc)
    · by_cases hsc : sd.SourceCode.getD "" = ""
      · simp only [hsc, if_pos rfl, if_true]
        intro hc
        exact List.mem_cons_of_mem _ (ih sB sS c hc)
      · simp only [if_neg hsc]
        rcases hfb : fb a with _ | bc
        · intro hc
          exact List.mem_cons_of_mem _ (ih sB sS c hc)
        · by_cases hbc : bc = ""
          · simp only [hbc, if_pos rfl, if_true]
            intro hc
            exact List.mem_cons_of_mem _ (ih sB sS c hc)
          · simp only [if_neg hbc]
            by_cases hdup : _is_duplicate_contract sB sS
                (_generate_bytecode_hash bc)
                (_generate_source_hash (sd.SourceCode.getD "")) = true
            · simp only [hdup, if_true]
              intro hc
              exact List.mem_cons_of_mem _ (ih sB sS c hc)
            · simp only [Bool.not_eq_true] at hdup
              simp only [hdup, Bool.false_eq_true, if_false]
              rcases hr : parseRuns sd.Runs with _ | runs
              · intro hc
                exact List.mem_cons_of_mem _ (ih _ _ c hc)
              · simp only [List.mem_cons]
                intro hc
                rcases hc with hc | hc
                · rw [hc]
                  exact Or.inl rfl
                · exact Or.inr (ih _ _ c hc)

/-- Claim C6 counterexample: with candidates ["a", "b", "c"], where "a" is
unverified and "b", "c" are verified and distinct, and limit 2, the code
truncates the candidate list to ["a", "b"] and emits one record, while the
spec's scanner — which lets skipped addresses not consume the limit — would
emit two. The limit caps exploration, not accepted records. -/
theorem c6_counterexample :
    (scanCandidates exFetchSrc exFetchByte "2024" "ethereum" 1 ["a", "b", "c"] [] [] 2).1.length = 1 ∧
    (specScanLoop exFetchSrc exFetchByte "2024" "ethereum" 1 ["a", "b", "c"] [] [] 2).length = 2 := by
  exact ⟨by decide, by decide⟩

/-- Claim C6 (amended): the scan iterates exactly the first `limit` candidate
addresses (`test_addresses[:limit]`), so it terminates after exhausting that
truncated list; the number of emitted records is at most
`min limit candidates.length`, and every emitted record comes from the first
`limit` candidates — skipped addresses do consume the limit. -/
theorem c6_scan_limit_semantics (fs : String → Option SourcePayload)
    (fb : String → Option String) (now chain : String) (cid : Int)
    (candidates : List String) (sB sS : List String) (limit : Nat) :
    get_verified_contracts fs fb now chain cid sB sS limit =
      scanCandidates fs fb now chain cid
        (if chain = "base" then base_test_addresses else eth_test_addresses) sB sS limit ∧
    scanCandidates fs fb now chain cid candidates sB sS limit =
      scanAddresses fs fb now chain cid (candidates.take limit) sB sS ∧
    (scanCandidates fs fb now chain cid candidates sB sS limit).1.length ≤
      min limit candidates.length ∧
    (∀ c ∈ (scanCandidates fs fb now chain cid candidates sB sS limit).1,
      c.address ∈ candidates.take limit) := by
  refine ⟨rfl, rfl, ?_, ?_⟩
  · have h := scanAddresses_length_le fs fb now chain cid (candidates.take limit) sB sS
    rwa [List.length_take] at h
  · intro c hc
    exact scanAddresses_addr_mem fs fb now chain cid (candidates.take limit) sB sS c hc

/-- Claim C6 witness at the three-address scenario with limit 2. -/
theorem c6_scan_limit_semantics_witness :
    (scanCandidates exFetchSrc exFetchByte "2024" "ethereum" 1 ["a", "b", "c"] [] [] 2).1.length ≤
      min 2 3 ∧
    (exScanOut.getD 0 dummyContract).address ∈ (["a", "b", "c"] : List String).take 2 := by
  have h := c6_scan_limit_semantics exFetchSrc exFetchByte "2024" "ethereum" 1
    ["a", "b", "c"] [] [] 2
  exact ⟨h.2.2.1, h.2.2.2 (exScanOut.getD 0 dummyContract) (by decide)⟩

/-- The global dedup pass: the returned sets extend the given ones by exactly
the kept records' hashes, the kept records have pairwise distinct hashes, and
no kept hash was already in the given sets. -/
theorem applyGlobalDedup_invariant (cs : List ContractData) : ∀ gb gs,
    (applyGlobalDedup gb gs cs).2.1 =
      ((applyGlobalDedup gb gs cs).1.map (fun c => c.bytecode_hash)).reverse ++ gb ∧
    (applyGlobalDedup gb gs cs).2.2 =
      ((applyGlobalDedup gb gs cs).1.map (fun c => c.source_hash)).reverse ++ gs ∧
    ((applyGlobalDedup gb gs cs).1.map (fun c => c.bytecode_hash)).Nodup ∧
    ((applyGlobalDedup gb gs cs).1.map (fun c => c.source_hash)).Nodup ∧
    (∀ b ∈ (applyGlobalDedup gb gs cs).1.map (fun c => c.bytecode_hash), b ∉ gb) ∧
    (∀ h ∈ (applyGlobalDedup gb gs cs).1.map (fun c => c.source_hash), h ∉ gs) := by
  induction cs with
  | nil => intro gb gs; simp [applyGlobalDedup]
  | cons c cs ih =>
    intro gb gs
    by_cases hcond : c.bytecode_hash ∉ gb ∧ c.source_hash ∉ gs
    · simp only [applyGlobalDedup, if_pos hcond]
      obtain ⟨e1, e2, n1, n2, f1, f2⟩ := ih (c.bytecode_hash :: gb) (c.source_hash :: gs)
      refine ⟨?_, ?_, ?_, ?_, ?_, ?_⟩
      · rw [List.map_cons, List.reverse_cons, List.append_assoc, List.singleton_append]
        exact e1
      · rw [List.map_cons, List.reverse_cons, List.append_assoc, List.singleton_append]
        exact e2
      · rw [List.map_cons, List.nodup_cons]
        refine ⟨fun hmem => ?_, n1⟩
        exact f1 c.bytecode_hash hmem (List.mem_cons_self _ _)
      · rw [List.map_cons, List.nodup_cons]
        refine ⟨fun hmem => ?_, n2⟩
        exact f2 c.source_hash hmem (List.mem_cons_self _ _)
      · intro b hb
        rcases List.mem_cons.mp (List.map_cons _ c _ ▸ hb) with hb' | hb'
        · rw [hb']; exact hcond.1
        · exact fun hgb => f1 b hb' (List.mem_cons_of_mem _ hgb)
      · intro h hh
        rcases List.mem_cons.mp (List.map_cons _ c _ ▸ hh) with hh' | hh'
        · rw [hh']; exact hcond.2
        · exact fun hgs => f2 h hh' (List.mem_cons_of_mem _ hgs)
    · simp only [applyGlobalDedup, if_neg hcond]
      exact ih gb gs

/-- The orchestrator's merged output has pairwise distinct bytecode hashes and
pairwise distinct source hashes, none of them in the starting sets. -/
theorem gatherChains_invariant (rs : List (Except String (List ContractData))) : ∀ gb gs,
    ((gatherChains gb gs rs).map (fun c => c.bytecode_hash)).Nodup ∧
    ((gatherChains gb gs rs).map (fun c => c.source_hash)).Nodup ∧
    (∀ b ∈ (gatherChains gb gs rs).map (fun c => c.bytecode_hash), b ∉ gb) ∧
    (∀ h ∈ (gatherChains gb gs rs).map (fun c => c.source_hash), h ∉ gs) := by
  induction rs with
  | nil => intro gb gs; simp [gatherChains]
  | cons r rest ih =>
    intro gb gs
    cases r with
    | error e =>
      simp only [gatherChains]
      exact ih gb gs
    | ok cs =>
      simp only [gatherChains]
      obtain ⟨e1, e2, n1, n2, f1, f2⟩ := applyGlobalDedup_invariant cs gb gs
      obtain ⟨m1, m2, g1, g2⟩ :=
        ih (applyGlobalDedup gb gs cs).2.1 (applyGlobalDedup gb gs cs).2.2
      have hsubB : ∀ a, a ∈ (applyGlobalDedup gb gs cs).1.map (fun c => c.bytecode_hash) →
          a ∈ (applyGlobalDedup gb gs cs).2.1 := by
        intro a ha
        rw [e1]
        exact List.mem_append_left _ (List.mem_reverse.mpr ha)
      have hsubS : ∀ a, a ∈ (applyGlobalDedup gb gs cs).1.map (fun c => c.source_hash) →
          a ∈ (applyGlobalDedup gb gs cs).2.2 := by
        intro a ha
        rw [e2]
        exact List.mem_append_left _ (List.mem_reverse.mpr ha)
      refine ⟨?_, ?_, ?_, ?_⟩
      · rw [List.map_append, List.nodup_append]
        refine ⟨n1, m1, ?_⟩
        intro a ha hmem
        exact g1 a hmem (hsubB a ha)
      · rw [List.map_append, List.nodup_append]
        refine ⟨n2, m2, ?_⟩
        intro a ha hmem
        exact g2 a hmem (hsubS a ha)
      · intro b hb
        rw [List.map_append] at hb
        rcases List.mem_append.mp hb with hb' | hb'
        · exact f1 b hb'
        · intro hgb
          refine g1 b hb' ?_
          rw [e1]
          exact List.mem_append_right _ hgb
      · intro h hh
        rw [List.map_append] at hh
        rcases List.mem_append.mp hh with hh' | hh'
        · exact f2 h hh'
        · intro hgs
          refine g2 h hh' ?_
          rw [e2]
          exact List.mem_append_right _ hgs

/-- A chain list with internally distinct hashes, all fresh for the global
sets, passes the global dedup pass untouched. -/
theorem applyGlobalDedup_all_fresh (cs : List ContractData) : ∀ gb gs,
    (cs.map (fun c => c.bytecode_hash)).Nodup →
    (cs.map (fun c => c.source_hash)).Nodup →
    (∀ c ∈ cs, c.bytecode_hash ∉ gb ∧ c.source_hash ∉ gs) →
    applyGlobalDedup gb gs cs =
      (cs, (cs.map (fun c => c.bytecode_hash)).reverse ++ gb,
        (cs.map (fun c => c.source_hash)).reverse ++ gs) := by
  induction cs with
  | nil => intro gb gs _ _ _; simp [applyGlobalDedup]
  | cons c cs ih =>
    intro gb gs hb hs hfresh
    have hcond : c.bytecode_hash ∉ gb ∧ c.source_hash ∉ gs := hfresh c (by simp)
    rw [List.map_cons, List.nodup_cons] at hb hs
    simp only [applyGlobalDedup, if_pos hcond]
    rw [ih (c.bytecode_hash :: gb) (c.source_hash :: gs) hb.2 hs.2 ?_]
    · refine Prod.ext rfl (Prod.ext ?_ ?_) <;>
        simp [List.reverse_cons, List.append_assoc]
    · intro d hd
      constructor
      · intro hmem
        rcases List.mem_cons.mp hmem with hm | hm
        · exact hb.1 (hm ▸ List.mem_map_of_mem _ hd)
        · exact (hfresh d (List.mem_cons_of_mem _ hd)).1 hm
      · intro hmem
        rcases List.mem_cons.mp hmem with hm | hm
        · exact hs.1 (hm ▸ List.mem_map_of_mem _ hd)
        · exact (hfresh d (List.mem_cons_of_mem _ hd)).2 hm

/-- Claim C2: in the merged list of `get_all_verified_contracts` no two
records share a bytecode hash and no two share a source hash; and when two
chains whose own lists are internally duplicate-free (as the per-chain scanner
guarantees) each contribute a record with the same bytecode hash (or the same
source hash), exactly one record with that hash appears in the merged
result. -/
theorem c2_cross_chain_global_dedup (rs : List (Except String (List ContractData)))
    (l1 l2 : List ContractData) (r1 r2 : ContractData)
    (h1b : (l1.map (fun c => c.bytecode_hash)).Nodup)
    (h1s : (l1.map (fun c => c.source_hash)).Nodup)
    (h2b : (l2.map (fun c => c.bytecode_hash)).Nodup)
    (h2s : (l2.map (fun c => c.source_hash)).Nodup)
    (hr1 : r1 ∈ l1) (hr2 : r2 ∈ l2) :
    ((get_all_verified_contracts rs).map (fun c => c.bytecode_hash)).Nodup ∧
    ((get_all_verified_contracts rs).map (fun c => c.source_hash)).Nodup ∧
    (r1.bytecode_hash = r2.bytecode_hash →
      ((get_all_verified_contracts [Except.ok l1, Except.ok l2]).map
        (fun c => c.bytecode_hash)).count r1.bytecode_hash = 1) ∧
    (r1.source_hash = r2.source_hash →
      ((get_all_verified_contracts [Except.ok l1, Except.ok l2]).map
        (fun c => c.source_hash)).count r1.source_hash = 1) := by
  obtain ⟨nb, ns, _, _⟩ := gatherChains_invariant rs [] []
  have hmem : r1 ∈ get_all_verified_contracts [Except.ok l1, Except.ok l2] := by
    unfold get_all_verified_contracts
    have hfr : ∀ c ∈ l1, c.bytecode_hash ∉ ([] : List String) ∧
        c.source_hash ∉ ([] : List String) := by simp
    simp only [gatherChains]
    rw [applyGlobalDedup_all_fresh l1 [] [] h1b h1s hfr]
    exact List.mem_append_left _ hr1
  obtain ⟨nb2, ns2, _, _⟩ := gatherChains_invariant [Except.ok l1, Except.ok l2] [] []
  refine ⟨nb, ns, ?_, ?_⟩
  · intro _
    exact List.count_eq_one_of_mem nb2 (List.mem_map_of_mem _ hmem)
  · intro _
    exact List.count_eq_one_of_mem ns2 (List.mem_map_of_mem _ hmem)

/-- Claim C2 witness: chains contributing `cA` and `cD`, which share the
bytecode hash "h1", merge to a list with exactly one record carrying "h1". -/
theorem c2_cross_chain_global_dedup_witness :
    ((get_all_verified_contracts [Except.ok [cA], Except.ok [cD]]).map
      (fun c => c.bytecode_hash)).count "h1" = 1 := by
  have h := c2_cross_chain_global_dedup [Except.ok [cA], Except.ok [cD]]
    [cA] [cD] cA cD (by decide) (by decide) (by decide) (by decide)
    (by decide) (by decide)
  exact h.2.2.1 (by decide)

/-- A chain whose scan raises is skipped and changes nothing. -/
theorem gatherChains_skip_error (rs2 : List (Except String (List ContractData)))
    (e : String) (rs1 : List (Except String (List ContractData))) : ∀ gb gs,
    gatherChains gb gs (rs1 ++ Except.error e :: rs2) =
      gatherChains gb gs (rs1 ++ rs2) := by
  induction rs1 with
  | nil => intro gb gs; simp only [List.nil_append, gatherChains]
  | cons r rs1 ih =>
    intro gb gs
    cases r with
    | error e2 =>
      simp only [List.cons_append, gatherChains]
      exact ih _ _
    | ok cs =>
      simp only [List.cons_append, gatherChains]
      exact congrArg (fun x => (applyGlobalDedup gb gs cs).1 ++ x) (ih _ _)

/-- A chain contributing no records changes nothing. -/
theorem gatherChains_skip_empty (rs2 : List (Except String (List ContractData)))
    (rs1 : List (Except String (List ContractData))) : ∀ gb gs,
    gatherChains gb gs (rs1 ++ Except.ok [] :: rs2) =
      gatherChains gb gs (rs1 ++ rs2) := by
  induction rs1 with
  | nil =>
    intro gb gs
    simp only [List.nil_append, gatherChains, applyGlobalDedup, List.nil_append]
  | cons r rs1 ih =>
    intro gb gs
    cases r with
    | error e2 =>
      simp only [List.cons_append, gatherChains]
      exact ih _ _
    | ok cs =>
      simp only [List.cons_append, gatherChains]
      exact congrArg (fun x => (applyGlobalDedup gb gs cs).1 ++ x) (ih _ _)

/-- When every source fetch fails, the scan emits nothing and leaves the
seen-hash sets untouched. -/
theorem scanAddresses_all_fail (fb : String → Option String) (now chain : String)
    (cid : Int) (addrs : List String) : ∀ sB sS,
    scanAddresses (fun _ => none) fb now chain cid addrs sB sS = ([], sB, sS) := by
  induction addrs with
  | nil => intro sB sS; rfl
  | cons a rest ih =>
    intro sB sS
    simp only [scanAddresses]
    exact ih sB sS

/-- The reported error counter of `discover_contracts` is always 0: fetch
failures are only logged, and the per-record loop cannot raise in the
embedding because `analyze_contract` and `insert_contract` swallow their own
errors. -/
theorem discover_errors_zero (rs : List (Except String (List ContractData)))
    (a : ContractData → String) (g : Bool) (r : ContractData → String)
    (d : List DbRow) : (discover_contracts rs a g r d).1.errors = 0 := by
  by_cases h : (get_all_verified_contracts rs).isEmpty = true <;>
    simp [discover_contracts, h, _process_contracts]

/-- Claim C8 (amended): a chain that fails (its scan raises, or all its
fetches fail and it contributes no records) leaves the other chains'
merged records and the whole discovery result unchanged — failure isolation
holds — but the failing chain's failures are only logged: the reported error
count of `discover_contracts` is always 0 and does not reflect them. -/
theorem c8_per_chain_failure_isolation
    (rs1 rs2 : List (Except String (List ContractData))) (e : String)
    (analyze : ContractData → String) (gr : Bool) (rp : ContractData → String)
    (db : List DbRow) :
    get_all_verified_contracts (rs1 ++ Except.error e :: rs2) =
      get_all_verified_contracts (rs1 ++ rs2) ∧
    get_all_verified_contracts (rs1 ++ Except.ok [] :: rs2) =
      get_all_verified_contracts (rs1 ++ rs2) ∧
    discover_contracts (rs1 ++ Except.error e :: rs2) analyze gr rp db =
      discover_contracts (rs1 ++ rs2) analyze gr rp db ∧
    (∀ (fb : String → Option String) (now chain : String) (cid : Int)
      (sB sS : List String) (limit : Nat),
      (get_verified_contracts (fun _ => none) fb now chain cid sB sS limit).1 = []) ∧
    (∀ (rs : List (Except String (List ContractData))) (a : ContractData → String)
      (g : Bool) (r : ContractData → String) (d : List DbRow),
      (discover_contracts rs a g r d).1.errors = 0) := by
  have hg : get_all_verified_contracts (rs1 ++ Except.error e :: rs2) =
      get_all_verified_contracts (rs1 ++ rs2) := gatherChains_skip_error rs2 e rs1 [] []
  refine ⟨hg, gatherChains_skip_empty rs2 rs1 [] [], ?_, ?_, discover_errors_zero⟩
  · unfold discover_contracts
    rw [hg]
  · intro fb now chain cid sB sS limit
    simp [get_verified_contracts, scanCandidates, scanAddresses_all_fail]

/-- Claim C8 counterexample: one chain fails entirely ("connection refused")
while the other contributes one record; discovery still returns that record
(contracts_added = 1), but the reported error count is 0, not a count of the
failing chain's failures as the claim asserts. -/
theorem c8_counterexample :
    (discover_contracts [Except.error "connection refused", Except.ok [cB]]
      (fun _ => "summary") true (fun c => c.address) []).1.errors = 0 ∧
    (discover_contracts [Except.error "connection refused", Except.ok [cB]]
      (fun _ => "summary") true (fun c => c.address) []).1.contracts_added = 1 := by
  exact ⟨by decide, by decide⟩
